import Mathlib

/-!
Verification of the multi-corpus retrieval and rank-fusion core of the
`med_trial_rag` repository.

The development shallowly embeds the two source units the claims are about:

* `src/utils/fusion.py` — `reciprocal_rank_fusion`, which combines ranked
  lists of result records using Reciprocal Rank Fusion (RRF);
* `src/retrieval/faiss_s3.py` — the `FaissS3Retriever` facade, which loads
  per-corpus vector indices from a manifest and serves fused searches.

Result records are Python dicts with optional `corpus` / `chunk_id` fields,
a text payload, a metadata mapping and a numeric score; they are embedded as
a structure with `Option` fields for the two key components (so that
`item.get("corpus", "")` is `Option.getD`).  Real-valued scores are embedded
as `ℚ` (exact arithmetic).  Python's stable `list.sort(key=..., reverse=True)`
is embedded as `List.insertionSort` with the descending-score relation, which
is the (unique) stable sort for that relation.
-/

namespace MedTrialRag

/-- The metadata attached to a chunk; an opaque string-keyed mapping in the
source, embedded as an association list. -/
abbrev Metadata := List (String × String)

/-- A ranked result record (a Python dict with at least `corpus` and
`chunk_id` keys when well-formed; either may be absent). -/
structure RItem where
  corpus? : Option String := none
  chunk_id? : Option String := none
  text : String := ""
  metadata : Metadata := []
  score : ℚ := 0
deriving DecidableEq, Repr

/-- The deduplication key of `reciprocal_rank_fusion`. -/
abbrev Key := String × String

/-- The key under which an item is scored and deduplicated:
`(item.get("corpus", ""), item.get("chunk_id", ""))` (fusion.py lines 35–37). -/
def keyOf (item : RItem) : Key :=
  (item.corpus?.getD "", item.chunk_id?.getD "")

/-- One pass of the score-map loop over a single ranked list:
`for rank, item in enumerate(rank_list, start=1): score_map[key] += 1/(k+rank)`
(fusion.py lines 34–40).  The dict is embedded as a total function
defaulting to `0`, matching `score_map.get(key, 0.0)`. -/
def scoreMapList (k : ℕ) (m : Key → ℚ) (rank_list : List RItem) : Key → ℚ :=
  (rank_list.enumFrom 1).foldl
    (fun m p =>
      Function.update m (keyOf p.2) (m (keyOf p.2) + 1 / ((k : ℚ) + p.1)))
    m

/-- The score map built by the first loop of `reciprocal_rank_fusion`
(fusion.py lines 31–40). -/
def buildScoreMap (k : ℕ) (ranked_lists : List (List RItem)) : Key → ℚ :=
  ranked_lists.foldl (scoreMapList k) (fun _ => 0)

/-- One step of the dedup-and-collect loop (fusion.py lines 47–57): skip a
key already seen, otherwise record the key and append the item with its
`score` overwritten by the fused score. -/
def dedupeStep (scores : Key → ℚ) (acc : List Key × List RItem) (item : RItem) :
    List Key × List RItem :=
  if keyOf item ∈ acc.1 then acc
  else (keyOf item :: acc.1, acc.2 ++ [{ item with score := scores (keyOf item) }])

/-- The second loop of `reciprocal_rank_fusion` (fusion.py lines 42–57):
merge items from all lists, keeping the record of the first occurrence of
each key with its score overwritten. -/
def collectFused (scores : Key → ℚ) (ranked_lists : List (List RItem)) : List RItem :=
  (ranked_lists.foldl (fun acc l => l.foldl (dedupeStep scores) acc) ([], [])).2

/-- The descending-score relation used by the final sort
(`key=lambda x: x.get("score", 0.0), reverse=True`, fusion.py line 60). -/
def scoreDesc (a b : RItem) : Prop := b.score ≤ a.score

instance : DecidableRel scoreDesc := fun a b =>
  inferInstanceAs (Decidable (b.score ≤ a.score))

instance : IsTotal RItem scoreDesc := ⟨fun a b => le_total b.score a.score⟩

instance : IsTrans RItem scoreDesc := ⟨fun _ _ _ h h' => le_trans h' h⟩

/-- The fusion function `reciprocal_rank_fusion(ranked_lists, k=60)` of
src/utils/fusion.py.  Python's stable in-place sort with `reverse=True` is
embedded as the stable `insertionSort` under the descending-score
relation. -/
def reciprocal_rank_fusion (ranked_lists : List (List RItem)) (k : ℕ := 60) :
    List RItem :=
  if ranked_lists = [] then []
  else
    let score_map := buildScoreMap k ranked_lists
    let fused_items := collectFused score_map ranked_lists
    fused_items.insertionSort scoreDesc

/-- The RRF contribution of one ranked list to one key: the sum of
`1/(k + rank)` over the (1-based) positions of the list holding an item
with that key. -/
def listContribution (k : ℕ) (key : Key) (rank_list : List RItem) : ℚ :=
  ((rank_list.enumFrom 1).map
    (fun p => if keyOf p.2 = key then 1 / ((k : ℚ) + p.1) else 0)).sum

/-- The specification-level RRF score of a key: the sum of its per-list
contributions over all input lists (a list not containing the key
contributes `0`). -/
def rrfScore (k : ℕ) (ranked_lists : List (List RItem)) (key : Key) : ℚ :=
  (ranked_lists.map (listContribution k key)).sum

/-- The 1-based rank of the first item with the given key in a ranked list,
if any. -/
def rankOf? (key : Key) (rank_list : List RItem) : Option ℕ :=
  ((rank_list.enumFrom 1).find? (fun p => decide (keyOf p.2 = key))).map (·.1)

/-! ### Score-map lemmas -/

lemma keyOf_setScore (item : RItem) (q : ℚ) : keyOf { item with score := q } = keyOf item := rfl

lemma scoreMapFold_apply (k : ℕ) (pl : List (ℕ × RItem)) :
    ∀ (m : Key → ℚ) (key : Key),
      (pl.foldl
          (fun m p => Function.update m (keyOf p.2) (m (keyOf p.2) + 1 / ((k : ℚ) + p.1))) m) key
        = m key + (pl.map (fun p => if keyOf p.2 = key then 1 / ((k : ℚ) + p.1) else 0)).sum := by
  induction pl with
  | nil => intro m key; simp
  | cons p pl ih =>
    intro m key
    rw [List.foldl_cons, ih, List.map_cons, List.sum_cons]
    by_cases h : keyOf p.2 = key
    · subst h
      rw [Function.update_apply, if_pos rfl, if_pos rfl]
      ring
    · rw [Function.update_apply, if_neg (Ne.symm h), if_neg h]
      ring

lemma scoreMapList_apply (k : ℕ) (m : Key → ℚ) (l : List RItem) (key : Key) :
    scoreMapList k m l key = m key + listContribution k key l :=
  scoreMapFold_apply k (l.enumFrom 1) m key

lemma buildScoreMap_foldl (k : ℕ) (ls : List (List RItem)) :
    ∀ (m : Key → ℚ) (key : Key),
      (ls.foldl (scoreMapList k) m) key = m key + (ls.map (listContribution k key)).sum := by
  induction ls with
  | nil => intro m key; simp
  | cons l ls ih =>
    intro m key
    rw [List.foldl_cons, ih, List.map_cons, List.sum_cons, scoreMapList_apply]
    ring

/-- The score map computed by the first loop of `reciprocal_rank_fusion` is
exactly the specification-level RRF score. -/
lemma buildScoreMap_apply (k : ℕ) (ranked_lists : List (List RItem)) (key : Key) :
    buildScoreMap k ranked_lists key = rrfScore k ranked_lists key := by
  unfold buildScoreMap rrfScore
  rw [buildScoreMap_foldl]
  simp

/-! ### Per-list contribution lemmas -/

lemma fst_le_of_mem_enumFrom {α : Type} :
    ∀ {l : List α} {n : ℕ} {p : ℕ × α}, p ∈ l.enumFrom n → n ≤ p.1 := by
  intro l
  induction l with
  | nil => intro n p hp; simp at hp
  | cons a l ih =>
    intro n p hp
    rw [List.enumFrom_cons] at hp
    rcases List.mem_cons.mp hp with h | h
    · subst h; exact Nat.le_refl n
    · exact Nat.le_of_succ_le (ih h)

lemma listContribution_eq_zero {key : Key} {l : List RItem} (k : ℕ)
    (h : rankOf? key l = none) : listContribution k key l = 0 := by
  unfold listContribution
  apply List.sum_eq_zero
  intro x hx
  simp only [List.mem_map] at hx
  obtain ⟨p, hp, rfl⟩ := hx
  unfold rankOf? at h
  rw [Option.map_eq_none'] at h
  have := List.find?_eq_none.mp h p hp
  simp only [decide_eq_true_eq] at this
  simp [this]

lemma contribFind_aux (k : ℕ) (key : Key) :
    ∀ (pl : List (ℕ × RItem)), (pl.map (fun p => keyOf p.2)).Nodup →
      ∀ q, pl.find? (fun p => decide (keyOf p.2 = key)) = some q →
      (pl.map (fun p => if keyOf p.2 = key then 1 / ((k : ℚ) + p.1) else 0)).sum
        = 1 / ((k : ℚ) + q.1) := by
  intro pl
  induction pl with
  | nil => intro _ q hq; simp at hq
  | cons p pl ih =>
    intro hnd q hq
    rw [List.map_cons, List.nodup_cons] at hnd
    by_cases h : keyOf p.2 = key
    · rw [List.find?_cons_of_pos _ (by simpa using h)] at hq
      cases hq
      rw [List.map_cons, List.sum_cons, if_pos h]
      have hz : (pl.map (fun p => if keyOf p.2 = key then 1 / ((k : ℚ) + p.1) else 0)).sum = 0 := by
        apply List.sum_eq_zero
        intro x hx
        simp only [List.mem_map] at hx
        obtain ⟨p', hp', rfl⟩ := hx
        have : keyOf p'.2 ≠ key := by
          intro hk
          exact hnd.1 (by rw [h, ← hk]; exact List.mem_map_of_mem _ hp')
        simp [this]
      rw [hz]
      ring
    · rw [List.find?_cons_of_neg _ (by simpa using h)] at hq
      rw [List.map_cons, List.sum_cons, if_neg h, ih hnd.2 q hq]
      ring

lemma listContribution_of_rank {key : Key} {l : List RItem} {r : ℕ} (k : ℕ)
    (hnd : (l.map keyOf).Nodup) (h : rankOf? key l = some r) :
    listContribution k key l = 1 / ((k : ℚ) + r) := by
  unfold rankOf? at h
  rw [Option.map_eq_some'] at h
  obtain ⟨q, hq, hr⟩ := h
  subst hr
  have hnd' : ((l.enumFrom 1).map (fun p => keyOf p.2)).Nodup := by
    have : (l.enumFrom 1).map (fun p => keyOf p.2) = l.map keyOf := by
      rw [show (fun p : ℕ × RItem => keyOf p.2) = keyOf ∘ Prod.snd from rfl, ← List.map_map,
        List.enumFrom_map_snd]
    rw [this]
    exact hnd
  exact contribFind_aux k key (l.enumFrom 1) hnd' q hq

lemma rankOf?_pos {key : Key} {l : List RItem} {r : ℕ} (h : rankOf? key l = some r) : 1 ≤ r := by
  unfold rankOf? at h
  rw [Option.map_eq_some'] at h
  obtain ⟨q, hq, hr⟩ := h
  subst hr
  exact fst_le_of_mem_enumFrom (List.mem_of_find?_eq_some hq)

lemma listContribution_le {key : Key} {l : List RItem} (k : ℕ)
    (hnd : (l.map keyOf).Nodup) :
    listContribution k key l ≤ 1 / ((k : ℚ) + 1) := by
  cases h : rankOf? key l with
  | none =>
    rw [listContribution_eq_zero k h]
    positivity
  | some r =>
    rw [listContribution_of_rank k hnd h]
    have hr : (1 : ℚ) ≤ (r : ℚ) := by exact_mod_cast rankOf?_pos h
    apply one_div_le_one_div_of_le
    · positivity
    · linarith

/-! ### Dedup-and-collect lemmas -/

/-- Functional description of the `seen` set after the dedup loop. -/
def seenSpec (seen : List Key) : List RItem → List Key
  | [] => seen
  | it :: rest =>
    if keyOf it ∈ seen then seenSpec seen rest else seenSpec (keyOf it :: seen) rest

/-- Functional description of the items appended by the dedup loop. -/
def dedupeSpec (scores : Key → ℚ) (seen : List Key) : List RItem → List RItem
  | [] => []
  | it :: rest =>
    if keyOf it ∈ seen then dedupeSpec scores seen rest
    else { it with score := scores (keyOf it) } :: dedupeSpec scores (keyOf it :: seen) rest

/-- The subsequence of first occurrences of keys not yet seen. -/
def firstOccs (seen : List Key) : List RItem → List RItem
  | [] => []
  | it :: rest =>
    if keyOf it ∈ seen then firstOccs seen rest
    else it :: firstOccs (keyOf it :: seen) rest

lemma foldl_dedupeStep_eq (scores : Key → ℚ) :
    ∀ (l : List RItem) (seen : List Key) (out : List RItem),
      l.foldl (dedupeStep scores) (seen, out)
        = (seenSpec seen l, out ++ dedupeSpec scores seen l) := by
  intro l
  induction l with
  | nil => intro seen out; simp [seenSpec, dedupeSpec]
  | cons it rest ih =>
    intro seen out
    rw [List.foldl_cons]
    by_cases h : keyOf it ∈ seen
    · rw [show dedupeStep scores (seen, out) it = (seen, out) from by simp [dedupeStep, h]]
      rw [ih]
      simp [seenSpec, dedupeSpec, h]
    · rw [show dedupeStep scores (seen, out) it
            = (keyOf it :: seen, out ++ [{ it with score := scores (keyOf it) }]) from by
          simp [dedupeStep, h]]
      rw [ih]
      simp [seenSpec, dedupeSpec, h]

/-- The collection pass of `reciprocal_rank_fusion` is the dedup recursion
over the concatenation of the input lists in list order. -/
lemma collectFused_eq (scores : Key → ℚ) (ranked_lists : List (List RItem)) :
    collectFused scores ranked_lists = dedupeSpec scores [] ranked_lists.flatten := by
  unfold collectFused
  rw [← List.foldl_flatten, foldl_dedupeStep_eq]
  simp

lemma mem_keys_dedupeSpec (scores : Key → ℚ) :
    ∀ (l : List RItem) (seen : List Key) (key : Key),
      key ∈ (dedupeSpec scores seen l).map keyOf ↔ key ∈ l.map keyOf ∧ key ∉ seen := by
  intro l
  induction l with
  | nil => intro seen key; simp [dedupeSpec]
  | cons it rest ih =>
    intro seen key
    by_cases h : keyOf it ∈ seen
    · rw [show dedupeSpec scores seen (it :: rest) = dedupeSpec scores seen rest from by
          simp [dedupeSpec, h]]
      rw [ih]
      simp only [List.map_cons, List.mem_cons]
      constructor
      · rintro ⟨h1, h2⟩
        exact ⟨Or.inr h1, h2⟩
      · rintro ⟨h1 | h1, h2⟩
        · exact absurd (h1 ▸ h) h2
        · exact ⟨h1, h2⟩
    · rw [show dedupeSpec scores seen (it :: rest)
            = { it with score := scores (keyOf it) } :: dedupeSpec scores (keyOf it :: seen) rest
          from by simp [dedupeSpec, h]]
      rw [List.map_cons, List.mem_cons, keyOf_setScore, ih]
      simp only [List.map_cons, List.mem_cons]
      constructor
      · rintro (h1 | ⟨h1, h2⟩)
        · exact ⟨Or.inl h1, h1 ▸ h⟩
        · exact ⟨Or.inr h1, fun hk => h2 (Or.inr hk)⟩
      · rintro ⟨h1 | h1, h2⟩
        · exact Or.inl h1
        · by_cases hk : key = keyOf it
          · exact Or.inl hk
          · exact Or.inr ⟨h1, by simp [List.mem_cons, hk, h2]⟩

lemma nodup_keys_dedupeSpec (scores : Key → ℚ) :
    ∀ (l : List RItem) (seen : List Key), ((dedupeSpec scores seen l).map keyOf).Nodup := by
  intro l
  induction l with
  | nil => intro seen; simp [dedupeSpec]
  | cons it rest ih =>
    intro seen
    by_cases h : keyOf it ∈ seen
    · rw [show dedupeSpec scores seen (it :: rest) = dedupeSpec scores seen rest from by
          simp [dedupeSpec, h]]
      exact ih seen
    · rw [show dedupeSpec scores seen (it :: rest)
            = { it with score := scores (keyOf it) } :: dedupeSpec scores (keyOf it :: seen) rest
          from by simp [dedupeSpec, h]]
      rw [List.map_cons, List.nodup_cons, keyOf_setScore]
      refine ⟨?_, ih _⟩
      intro hmem
      rw [mem_keys_dedupeSpec] at hmem
      exact hmem.2 (List.mem_cons_self _ _)

lemma find?_dedupeSpec (scores : Key → ℚ) :
    ∀ (l : List RItem) (seen : List Key) (it : RItem), it ∈ dedupeSpec scores seen l →
      ∃ orig, l.find? (fun x => decide (keyOf x = keyOf it)) = some orig
        ∧ it = { orig with score := scores (keyOf it) } := by
  intro l
  induction l with
  | nil => intro seen it hit; simp [dedupeSpec] at hit
  | cons x rest ih =>
    intro seen it hit
    by_cases h : keyOf x ∈ seen
    · rw [show dedupeSpec scores seen (x :: rest) = dedupeSpec scores seen rest from by
          simp [dedupeSpec, h]] at hit
      have hne : keyOf x ≠ keyOf it := by
        intro he
        have hm : keyOf it ∈ (dedupeSpec scores seen rest).map keyOf :=
          List.mem_map_of_mem _ hit
        rw [mem_keys_dedupeSpec] at hm
        exact hm.2 (he ▸ h)
      obtain ⟨orig, ho, he⟩ := ih seen it hit
      exact ⟨orig, by rw [List.find?_cons_of_neg _ (by simpa using hne)]; exact ho, he⟩
    · rw [show dedupeSpec scores seen (x :: rest)
            = { x with score := scores (keyOf x) } :: dedupeSpec scores (keyOf x :: seen) rest
          from by simp [dedupeSpec, h]] at hit
      rcases List.mem_cons.mp hit with h1 | h1
      · subst h1
        refine ⟨x, ?_, ?_⟩
        · rw [keyOf_setScore]
          exact List.find?_cons_of_pos _ (by simp)
        · simp [keyOf]
      · have hk : keyOf it ∉ (keyOf x :: seen) := by
          have hm : keyOf it ∈ (dedupeSpec scores (keyOf x :: seen) rest).map keyOf :=
            List.mem_map_of_mem _ h1
          rw [mem_keys_dedupeSpec] at hm
          exact hm.2
        have hne : keyOf x ≠ keyOf it := fun he => hk (he ▸ List.mem_cons_self _ _)
        obtain ⟨orig, ho, he⟩ := ih _ it h1
        exact ⟨orig, by rw [List.find?_cons_of_neg _ (by simpa using hne)]; exact ho, he⟩

lemma firstOccs_sublist :
    ∀ (l : List RItem) (seen : List Key), List.Sublist (firstOccs seen l) l := by
  intro l
  induction l with
  | nil => intro seen; simp [firstOccs]
  | cons it rest ih =>
    intro seen
    by_cases h : keyOf it ∈ seen
    · rw [show firstOccs seen (it :: rest) = firstOccs seen rest from by simp [firstOccs, h]]
      exact (ih seen).trans (List.sublist_cons_self _ _)
    · rw [show firstOccs seen (it :: rest) = it :: firstOccs (keyOf it :: seen) rest from by
          simp [firstOccs, h]]
      exact List.Sublist.cons₂ _ (ih _)

lemma dedupeSpec_eq_map_firstOccs (scores : Key → ℚ) :
    ∀ (l : List RItem) (seen : List Key),
      dedupeSpec scores seen l
        = (firstOccs seen l).map (fun it => { it with score := scores (keyOf it) }) := by
  intro l
  induction l with
  | nil => intro seen; simp [dedupeSpec, firstOccs]
  | cons it rest ih =>
    intro seen
    by_cases h : keyOf it ∈ seen
    · simp only [dedupeSpec, firstOccs, if_pos h]
      exact ih seen
    · simp only [dedupeSpec, firstOccs, if_neg h, List.map_cons]
      rw [ih]

/-! ### Sorting lemmas -/

lemma rrf_eq_sort (ranked_lists : List (List RItem)) (k : ℕ) :
    reciprocal_rank_fusion ranked_lists k
      = (collectFused (buildScoreMap k ranked_lists) ranked_lists).insertionSort scoreDesc := by
  by_cases h : ranked_lists = []
  · subst h
    simp [reciprocal_rank_fusion, collectFused]
  · simp [reciprocal_rank_fusion, h]

lemma mem_rrf_iff {it : RItem} {ranked_lists : List (List RItem)} {k : ℕ} :
    it ∈ reciprocal_rank_fusion ranked_lists k
      ↔ it ∈ collectFused (buildScoreMap k ranked_lists) ranked_lists := by
  rw [rrf_eq_sort]
  exact List.mem_insertionSort scoreDesc

lemma filter_insertionSort_score (l : List RItem) (q : ℚ) :
    (l.insertionSort scoreDesc).filter (fun it => decide (it.score = q))
      = l.filter (fun it => decide (it.score = q)) := by
  have hmem : ∀ it ∈ l.filter (fun it => decide (it.score = q)), it.score = q := by
    intro it hit
    simpa using (List.mem_filter.mp hit).2
  have hpw : (l.filter (fun it => decide (it.score = q))).Pairwise scoreDesc := by
    apply List.pairwise_of_forall_mem_list
    intro a ha b hb
    unfold scoreDesc
    rw [hmem a ha, hmem b hb]
  have h1 : List.Sublist (l.filter (fun it => decide (it.score = q)))
      (l.insertionSort scoreDesc) :=
    List.sublist_insertionSort hpw (List.filter_sublist l)
  have h2 : List.Sublist (l.filter (fun it => decide (it.score = q)))
      ((l.insertionSort scoreDesc).filter (fun it => decide (it.score = q))) := by
    have := h1.filter (fun it => decide (it.score = q))
    simpa using this
  have h3 : ((l.insertionSort scoreDesc).filter (fun it => decide (it.score = q))).length
      = (l.filter (fun it => decide (it.score = q))).length :=
    ((List.perm_insertionSort scoreDesc l).filter _).length_eq
  exact (h2.eq_of_length h3.symm).symm

/-! ### Facts about the fused output, shared by the claim theorems -/

lemma rrf_item_score {ranked_lists : List (List RItem)} {k : ℕ} {item : RItem}
    (h : item ∈ reciprocal_rank_fusion ranked_lists k) :
    item.score = rrfScore k ranked_lists (keyOf item) := by
  rw [mem_rrf_iff, collectFused_eq] at h
  obtain ⟨orig, _, he⟩ := find?_dedupeSpec _ _ _ _ h
  rw [← buildScoreMap_apply]
  conv_lhs => rw [he]

lemma rrf_find? {ranked_lists : List (List RItem)} {k : ℕ} {item : RItem}
    (h : item ∈ reciprocal_rank_fusion ranked_lists k) :
    ∃ orig, ranked_lists.flatten.find? (fun x => decide (keyOf x = keyOf item)) = some orig
      ∧ item = { orig with score := buildScoreMap k ranked_lists (keyOf item) } := by
  rw [mem_rrf_iff, collectFused_eq] at h
  exact find?_dedupeSpec _ _ _ _ h

lemma keys_rrf_perm (ranked_lists : List (List RItem)) (k : ℕ) :
    List.Perm ((reciprocal_rank_fusion ranked_lists k).map keyOf)
      ((collectFused (buildScoreMap k ranked_lists) ranked_lists).map keyOf) := by
  rw [rrf_eq_sort]
  exact (List.perm_insertionSort scoreDesc _).map keyOf

lemma nodup_keys_rrf (ranked_lists : List (List RItem)) (k : ℕ) :
    ((reciprocal_rank_fusion ranked_lists k).map keyOf).Nodup := by
  rw [(keys_rrf_perm ranked_lists k).nodup_iff, collectFused_eq]
  exact nodup_keys_dedupeSpec _ _ _

lemma mem_keys_rrf {key : Key} {ranked_lists : List (List RItem)} {k : ℕ} :
    key ∈ (reciprocal_rank_fusion ranked_lists k).map keyOf
      ↔ key ∈ ranked_lists.flatten.map keyOf := by
  rw [(keys_rrf_perm ranked_lists k).mem_iff, collectFused_eq, mem_keys_dedupeSpec]
  simp

/-! ### Claim theorems for the Rank Fusion Engine -/

/-- C1: every item in the output of `reciprocal_rank_fusion` carries a score
equal to the sum, over every input list, of its reciprocal-rank contribution
`1/(k + rank)` (rank 1-based, best first); a list not containing the item's
`(corpus, chunk_id)` key contributes `0`, a duplicate-free list containing it
at rank `r` contributes exactly `1/(k + r)`, so an item at ranks `r₁`, `r₂`
in two lists scores exactly `1/(k+r₁) + 1/(k+r₂)`. -/
theorem rrf_score_eq_sum_reciprocal_ranks :
    (∀ (ranked_lists : List (List RItem)) (k : ℕ) (item : RItem),
        item ∈ reciprocal_rank_fusion ranked_lists k →
        item.score = rrfScore k ranked_lists (keyOf item))
    ∧ (∀ (k : ℕ) (key : Key) (l : List RItem),
        rankOf? key l = none → listContribution k key l = 0)
    ∧ (∀ (k : ℕ) (key : Key) (l : List RItem) (r : ℕ), (l.map keyOf).Nodup →
        rankOf? key l = some r → listContribution k key l = 1 / ((k : ℚ) + r))
    ∧ (∀ (k : ℕ) (key : Key) (l₁ l₂ : List RItem) (r₁ r₂ : ℕ),
        (l₁.map keyOf).Nodup → (l₂.map keyOf).Nodup →
        rankOf? key l₁ = some r₁ → rankOf? key l₂ = some r₂ →
        rrfScore k [l₁, l₂] key = 1 / ((k : ℚ) + r₁) + 1 / ((k : ℚ) + r₂)) := by
  refine ⟨fun ranked_lists k item h => rrf_item_score h,
    fun k key l h => listContribution_eq_zero k h,
    fun k key l r hnd h => listContribution_of_rank k hnd h,
    fun k key l₁ l₂ r₁ r₂ hnd₁ hnd₂ h₁ h₂ => ?_⟩
  rw [rrfScore, List.map_cons, List.map_cons, List.map_nil, List.sum_cons, List.sum_cons,
    List.sum_nil, listContribution_of_rank k hnd₁ h₁, listContribution_of_rank k hnd₂ h₂]
  ring

/-- C2: the fused output has exactly one entry per unique `(corpus, chunk_id)`
key occurring anywhere in the inputs (keys include the corpus, so the same
chunk_id under two corpora stays distinct), and each entry is the record of
the key's first occurrence in list-scan order with only its score overwritten
by the fused value. -/
theorem rrf_dedup_first_occurrence :
    ∀ (ranked_lists : List (List RItem)) (k : ℕ),
      ((reciprocal_rank_fusion ranked_lists k).map keyOf).Nodup
      ∧ (∀ key : Key, key ∈ (reciprocal_rank_fusion ranked_lists k).map keyOf
            ↔ key ∈ ranked_lists.flatten.map keyOf)
      ∧ (∀ it ∈ reciprocal_rank_fusion ranked_lists k,
          ∃ orig,
            ranked_lists.flatten.find? (fun x => decide (keyOf x = keyOf it)) = some orig
            ∧ it = { orig with score := buildScoreMap k ranked_lists (keyOf it) }) :=
  fun ranked_lists k =>
    ⟨nodup_keys_rrf ranked_lists k, fun _ => mem_keys_rrf, fun _ hit => rrf_find? hit⟩

/-- C3: the fused output is sorted by fused score in descending order, and the
sort is stable: filtering the output at any fixed score value returns the
corresponding entries of the pre-sort collection pass unchanged, and that
collection pass is itself the subsequence of first occurrences across the
input lists (with scores overwritten), so equal-score entries keep the
relative order of their first occurrences. -/
theorem rrf_sorted_descending_stable :
    ∀ (ranked_lists : List (List RItem)) (k : ℕ),
      (reciprocal_rank_fusion ranked_lists k).Pairwise scoreDesc
      ∧ (∀ q : ℚ,
          (reciprocal_rank_fusion ranked_lists k).filter (fun it => decide (it.score = q))
            = (collectFused (buildScoreMap k ranked_lists) ranked_lists).filter
                (fun it => decide (it.score = q)))
      ∧ (∃ firsts : List RItem,
          List.Sublist firsts ranked_lists.flatten
          ∧ collectFused (buildScoreMap k ranked_lists) ranked_lists
              = firsts.map
                  (fun it => { it with score := buildScoreMap k ranked_lists (keyOf it) })) := by
  intro ranked_lists k
  refine ⟨?_, fun q => ?_, ?_⟩
  · rw [rrf_eq_sort]
    exact List.sorted_insertionSort scoreDesc _
  · rw [rrf_eq_sort, filter_insertionSort_score]
  · refine ⟨firstOccs [] ranked_lists.flatten, firstOccs_sublist _ _, ?_⟩
    rw [collectFused_eq, dedupeSpec_eq_map_firstOccs]

lemma countP_eq_one_of_nodup_mem {α : Type} [DecidableEq α] {ks : List α} {a : α}
    (hnd : ks.Nodup) (h : a ∈ ks) : ks.countP (fun x => decide (x = a)) = 1 := by
  induction ks with
  | nil => simp at h
  | cons b ks ih =>
    rw [List.nodup_cons] at hnd
    rcases List.mem_cons.mp h with rfl | hmem
    · rw [List.countP_cons_of_pos _ _ (by simp)]
      have hz : ks.countP (fun x => decide (x = a)) = 0 := by
        rw [List.countP_eq_zero]
        intro x hx
        simp only [decide_eq_true_eq]
        intro he
        exact hnd.1 (he ▸ hx)
      rw [hz]
    · have hne : b ≠ a := fun he => hnd.1 (he ▸ hmem)
      rw [List.countP_cons_of_neg _ _ (by simpa using hne)]
      exact ih hnd.2 hmem

/-- C4: with duplicate-free ranked lists and a fusion constant of at least 1,
an item whose key is ranked first in every input list strictly outscores any
item whose key misses some list, or appears in all lists but at a rank worse
than 1 in at least one of them; consequently the corresponding output entries
satisfy the same strict score comparison. -/
theorem rrf_rank1_dominates :
    ∀ (ranked_lists : List (List RItem)) (k : ℕ) (keyA keyB : Key),
      1 ≤ k →
      (∀ l ∈ ranked_lists, (l.map keyOf).Nodup) →
      (∀ l ∈ ranked_lists, rankOf? keyA l = some 1) →
      ((∃ l ∈ ranked_lists, rankOf? keyB l = none)
        ∨ ((∀ l ∈ ranked_lists, (rankOf? keyB l).isSome)
            ∧ ∃ l ∈ ranked_lists, ∃ r, rankOf? keyB l = some r ∧ 1 < r)) →
      rrfScore k ranked_lists keyB < rrfScore k ranked_lists keyA
      ∧ ∀ itA itB, itA ∈ reciprocal_rank_fusion ranked_lists k →
          itB ∈ reciprocal_rank_fusion ranked_lists k →
          keyOf itA = keyA → keyOf itB = keyB → itB.score < itA.score := by
  intro ranked_lists k keyA keyB hk hnd hA hB
  have hmain : rrfScore k ranked_lists keyB < rrfScore k ranked_lists keyA := by
    rw [rrfScore, rrfScore]
    apply List.sum_lt_sum
    · intro l hl
      rw [listContribution_of_rank k (hnd l hl) (hA l hl)]
      simpa using listContribution_le k (hnd l hl)
    · rcases hB with ⟨l, hl, hnone⟩ | ⟨_, l, hl, r, hsome, hr⟩
      · refine ⟨l, hl, ?_⟩
        rw [listContribution_eq_zero k hnone, listContribution_of_rank k (hnd l hl) (hA l hl)]
        have h1 : (0:ℚ) < (k:ℚ) + 1 := by positivity
        simpa using one_div_pos.mpr h1
      · refine ⟨l, hl, ?_⟩
        rw [listContribution_of_rank k (hnd l hl) hsome,
          listContribution_of_rank k (hnd l hl) (hA l hl)]
        have h1 : (0:ℚ) < (k:ℚ) + 1 := by positivity
        have h2 : ((k:ℚ) + 1) < ((k:ℚ) + (r:ℚ)) := by
          have hr' : (1:ℚ) < (r:ℚ) := by exact_mod_cast hr
          linarith
        simpa using one_div_lt_one_div_of_lt h1 h2
  refine ⟨hmain, fun itA itB hmA hmB hkA hkB => ?_⟩
  rw [rrf_item_score hmA, rrf_item_score hmB, hkA, hkB]
  exact hmain

/-- C10: an input item lacking both the corpus and chunk_id fields is keyed
by the empty-string pair, so any two such items — even with unrelated text in
different lists — merge into the single fused entry with key
`("", "")`, whose score sums all contributions of that key. -/
theorem rrf_missing_fields_merge :
    ∀ (ranked_lists : List (List RItem)) (k : ℕ) (l : List RItem) (it : RItem),
      l ∈ ranked_lists → it ∈ l → it.corpus? = none → it.chunk_id? = none →
      keyOf it = ("", "")
      ∧ ((reciprocal_rank_fusion ranked_lists k).filter
            (fun x => decide (keyOf x = ("", "")))).length = 1
      ∧ (∀ x ∈ reciprocal_rank_fusion ranked_lists k,
          keyOf x = ("", "") → x.score = rrfScore k ranked_lists ("", "")) := by
  intro ranked_lists k l it hl hit hc hid
  have hkey : keyOf it = ("", "") := by simp [keyOf, hc, hid]
  have hmemflat : ("", "") ∈ ranked_lists.flatten.map keyOf := by
    rw [← hkey]
    exact List.mem_map_of_mem _ (List.mem_flatten_of_mem hl hit)
  have hmem : ("", "") ∈ (reciprocal_rank_fusion ranked_lists k).map keyOf :=
    mem_keys_rrf.mpr hmemflat
  refine ⟨hkey, ?_, fun x hx hkx => by rw [rrf_item_score hx, hkx]⟩
  have h1 : ((reciprocal_rank_fusion ranked_lists k).filter
        (fun x => decide (keyOf x = ("", "")))).length
      = ((reciprocal_rank_fusion ranked_lists k).map keyOf).countP
          (fun kk => decide (kk = ("", ""))) := by
    rw [← List.countP_eq_length_filter, List.countP_map]
    rfl
  rw [h1]
  exact countP_eq_one_of_nodup_mem (nodup_keys_rrf ranked_lists k) hmem

/-- C9: fusing an empty sequence of ranked lists yields the empty list, as
does fusing a sequence holding only an empty ranked list; an empty ranked
list contributes nothing to any key's score. -/
theorem rrf_empty_inputs :
    (∀ k : ℕ, reciprocal_rank_fusion [] k = [])
    ∧ (∀ k : ℕ, reciprocal_rank_fusion [[]] k = [])
    ∧ (∀ (k : ℕ) (key : Key), listContribution k key [] = 0)
    ∧ (∀ (k : ℕ) (ranked_lists : List (List RItem)) (key : Key),
        rrfScore k ([] :: ranked_lists) key = rrfScore k ranked_lists key) := by
  refine ⟨fun k => rfl, fun k => rfl, fun k key => by simp [listContribution],
    fun k ranked_lists key => by simp [rrfScore, listContribution]⟩

/-! ### Concrete sample records used by the witness theorems -/

def wPdfA : RItem := { corpus? := some ("pdf"), chunk_id? := some ("c1") }

def wPdfB : RItem := { corpus? := some ("pdf"), chunk_id? := some ("c2") }

def wDup1 : RItem := { corpus? := some ("pdf"), chunk_id? := some ("chunk_1"), text := "first" }

def wDup2 : RItem := { corpus? := some ("pdf"), chunk_id? := some ("chunk_1"), text := "second" }

def wNoKey1 : RItem := { text := "foo" }

def wNoKey2 : RItem := { text := "bar" }

/-- Witness for C1 at concrete inputs. -/
theorem rrf_score_eq_sum_reciprocal_ranks_holds :
    ({ wPdfA with score := (1:ℚ)/61 }).score
        = rrfScore 60 [[wPdfA]] (keyOf { wPdfA with score := (1:ℚ)/61 })
    ∧ listContribution 60 ("x", "y") [wPdfA] = 0
    ∧ listContribution 60 (keyOf wPdfA) [wPdfB, wPdfA] = 1 / ((60:ℚ) + 2)
    ∧ rrfScore 60 [[wPdfA], [wPdfB, wPdfA]] (keyOf wPdfA)
        = 1 / ((60:ℚ) + 1) + 1 / ((60:ℚ) + 2) := by
  refine ⟨?_, ?_, ?_, ?_⟩
  · apply rrf_score_eq_sum_reciprocal_ranks.1 [[wPdfA]] 60
    norm_num +decide [reciprocal_rank_fusion, collectFused, buildScoreMap, scoreMapList,
      dedupeStep, keyOf, wPdfA, Function.update_apply, List.enumFrom, List.insertionSort,
      List.orderedInsert, scoreDesc]
  · exact rrf_score_eq_sum_reciprocal_ranks.2.1 60 ("x", "y") [wPdfA] (by decide)
  · simpa using rrf_score_eq_sum_reciprocal_ranks.2.2.1 60 (keyOf wPdfA) [wPdfB, wPdfA] 2
      (by decide) (by decide)
  · simpa using rrf_score_eq_sum_reciprocal_ranks.2.2.2 60 (keyOf wPdfA) [wPdfA] [wPdfB, wPdfA]
      1 2 (by decide) (by decide) (by decide) (by decide)

/-- Witness for C2 at concrete inputs: two lists both holding the key
`("pdf", "chunk_1")` with different text fuse into one entry carrying the
first occurrence's text. -/
theorem rrf_dedup_first_occurrence_holds :
    ((reciprocal_rank_fusion [[wDup1], [wDup2]] 60).map keyOf).Nodup
    ∧ (("pdf", "chunk_1") ∈ (reciprocal_rank_fusion [[wDup1], [wDup2]] 60).map keyOf
        ↔ ("pdf", "chunk_1") ∈ ([[wDup1], [wDup2]] : List (List RItem)).flatten.map keyOf)
    ∧ (∃ orig,
        ([[wDup1], [wDup2]] : List (List RItem)).flatten.find?
            (fun x => decide (keyOf x = keyOf { wDup1 with score := (2:ℚ)/61 })) = some orig
        ∧ { wDup1 with score := (2:ℚ)/61 }
            = { orig with
                score := buildScoreMap 60 [[wDup1], [wDup2]]
                  (keyOf { wDup1 with score := (2:ℚ)/61 }) }) := by
  refine ⟨(rrf_dedup_first_occurrence [[wDup1], [wDup2]] 60).1,
    (rrf_dedup_first_occurrence [[wDup1], [wDup2]] 60).2.1 _,
    (rrf_dedup_first_occurrence [[wDup1], [wDup2]] 60).2.2 _ ?_⟩
  norm_num +decide [reciprocal_rank_fusion, collectFused, buildScoreMap, scoreMapList,
    dedupeStep, keyOf, wDup1, wDup2, Function.update_apply, List.enumFrom, List.insertionSort,
    List.orderedInsert, scoreDesc]

/-- Witness for C4 at concrete inputs: the key ranked first in both lists
strictly outscores the key ranked second in both. -/
theorem rrf_rank1_dominates_holds :
    rrfScore 60 [[wPdfA, wPdfB], [wPdfA, wPdfB]] ("pdf", "c2")
        < rrfScore 60 [[wPdfA, wPdfB], [wPdfA, wPdfB]] ("pdf", "c1")
    ∧ ∀ itA itB, itA ∈ reciprocal_rank_fusion [[wPdfA, wPdfB], [wPdfA, wPdfB]] 60 →
        itB ∈ reciprocal_rank_fusion [[wPdfA, wPdfB], [wPdfA, wPdfB]] 60 →
        keyOf itA = ("pdf", "c1") → keyOf itB = ("pdf", "c2") → itB.score < itA.score :=
  rrf_rank1_dominates [[wPdfA, wPdfB], [wPdfA, wPdfB]] 60 ("pdf", "c1") ("pdf", "c2")
    (by decide) (by decide) (by decide)
    (Or.inr ⟨by decide, [wPdfA, wPdfB], by decide, 2, by decide, by decide⟩)

/-- Witness for C10 at concrete inputs: two key-less records in different
lists merge into the single entry keyed by the empty-string pair. -/
theorem rrf_missing_fields_merge_holds :
    keyOf wNoKey1 = ("", "")
    ∧ ((reciprocal_rank_fusion [[wNoKey1], [wNoKey2]] 60).filter
          (fun x => decide (keyOf x = ("", "")))).length = 1
    ∧ (∀ x ∈ reciprocal_rank_fusion [[wNoKey1], [wNoKey2]] 60,
        keyOf x = ("", "") → x.score = rrfScore 60 [[wNoKey1], [wNoKey2]] ("", "")) :=
  rrf_missing_fields_merge [[wNoKey1], [wNoKey2]] 60 [wNoKey1] wNoKey1
    (by decide) (by decide) rfl rfl

/-! ## Retriever Facade (src/retrieval/faiss_s3.py)

The S3 fetches, the FAISS deserialization and the query embedding are
external IO; they are modelled as already-resolved inputs (an artifact
environment and an embedding function). -/

/-- Modelled from the spec: the corpus entry of `data_schemas/manifest.py`,
a file not present among the sources.  Per §3 of the spec a corpus entry is
`{prefix, files, dimension, count}`; the storage-prefix field is named
`root` here. -/
structure CorpusEntry where
  root : String
  files : List String
  dimension : ℕ
  count : ℕ
deriving DecidableEq

/-- Modelled from the spec: the manifest of `data_schemas/manifest.py`, a
file not present among the sources: a version string and a name-keyed
mapping of corpus entries, embedded as an association list in iteration
order. -/
structure Manifest where
  version : String
  corpora : List (String × CorpusEntry)
deriving DecidableEq

/-- A deserialized vector index, used as a black box: a fixed dimension and
a search operation returning, for a query vector and a requested count, the
parallel arrays of similarity scores and ordinal ids (FAISS returns a `-1`
ordinal id for a missing slot). -/
structure FaissIndex where
  d : ℕ
  search : List ℚ → ℕ → List ℚ × List Int

/-- One parsed line of a corpus's ids.jsonl file (fields may be absent). -/
structure IdRecord where
  ann_id? : Option Int := none
  id? : Option String := none
deriving DecidableEq

/-- One parsed line of a corpus's docs.jsonl file (fields may be absent). -/
structure DocRecord where
  id? : Option String := none
  text? : Option String := none
  metadata? : Option Metadata := none
deriving DecidableEq

/-- The downloaded-and-parsed artifacts of one corpus: the deserialized
index plus the id and doc record streams (`jsonl_iter` skips malformed
lines, so the streams hold the parseable records). -/
structure CorpusArtifacts where
  index : FaissIndex
  idRecords : List IdRecord := []
  docRecords : List DocRecord := []

/-- Dict assignment on an association list: overwrite in place, else
append (Python dict insertion-order semantics). -/
def dictSet {β : Type} : List (String × β) → String → β → List (String × β)
  | [], key, v => [(key, v)]
  | p :: rest, key, v => if p.1 = key then (key, v) :: rest else p :: dictSet rest key v

/-- Dict lookup on an association list. -/
def dictGet? {β : Type} (m : List (String × β)) (key : String) : Option β :=
  (m.find? (fun p => decide (p.1 = key))).map (·.2)

/-- The mutable state of a FaissS3Retriever (faiss_s3.py lines 33–40);
`fusion_k` records `self.config.fusion_k` (default 8, config.py line 30). -/
structure RetrieverState where
  manifest : Option Manifest := none
  indices : List (String × FaissIndex) := []
  id_maps : List (String × (Int → Option String)) := []
  doc_maps : List (String × (String → Option (String × Metadata))) := []
  loaded : Bool := false
  corpus_counts : List (String × ℕ) := []
  fusion_k : ℕ := 8

/-- The id map built from ids.jsonl (faiss_s3.py lines 109–116): keep a line
only when `ann_id` is present and `id` is truthy (present and non-empty). -/
def buildIdMap (items : List IdRecord) : Int → Option String :=
  items.foldl
    (fun m item =>
      match item.ann_id?, item.id? with
      | some ann, some cid => if cid ≠ "" then Function.update m ann (some cid) else m
      | _, _ => m)
    (fun _ => none)

/-- The doc map built from docs.jsonl (faiss_s3.py lines 118–128): keep a
line only when `id` is truthy; text and metadata default to empty. -/
def buildDocMap (items : List DocRecord) : String → Option (String × Metadata) :=
  items.foldl
    (fun m item =>
      match item.id? with
      | some cid =>
        if cid ≠ "" then
          Function.update m cid (some (item.text?.getD "", item.metadata?.getD []))
        else m
      | none => m)
    (fun _ => none)

/-- The dimension-mismatch error message of faiss_s3.py lines 102–104. -/
def dimensionMismatchMsg (indexDim manifestDim : ℕ) : String :=
  "Dimension mismatch: index has " ++ toString indexDim ++ ", manifest says "
    ++ toString manifestDim

/-- One `_load_corpus` call (faiss_s3.py lines 75–137): deserialize the
index, fail fast on a dimension mismatch before touching the state, else
install the index and the id/doc maps and record the manifest count. -/
def load_corpus (s : RetrieverState) (corpus_name : String) (entry : CorpusEntry)
    (art : CorpusArtifacts) : Except String RetrieverState :=
  if art.index.d ≠ entry.dimension then
    Except.error (dimensionMismatchMsg art.index.d entry.dimension)
  else
    Except.ok { s with
      indices := dictSet s.indices corpus_name art.index
      id_maps := dictSet s.id_maps corpus_name (buildIdMap art.idRecords)
      doc_maps := dictSet s.doc_maps corpus_name (buildDocMap art.docRecords)
      corpus_counts := dictSet s.corpus_counts corpus_name entry.count }

/-- The per-corpus loading loop of `load_from_manifest` (faiss_s3.py lines
63–66): corpora are loaded in manifest order; a raised error aborts the
loop, leaving the state mutated so far and the error in the first
component. -/
def loadCorpora (env : String → CorpusArtifacts) :
    RetrieverState → List (String × CorpusEntry) → Option String × RetrieverState
  | s, [] => (none, s)
  | s, (corpus_name, entry) :: rest =>
    match load_corpus s corpus_name entry (env corpus_name) with
    | Except.error e => (some e, s)
    | Except.ok s' => loadCorpora env s' rest

/-- The `load_from_manifest` operation (faiss_s3.py lines 42–73) for an
already fetched and validated manifest (the S3 fetch and pydantic
validation failures abort the load before any corpus work).  The first
component is the raised error, if any; `loaded` becomes true only when
every corpus loads. -/
def load_from_manifest (env : String → CorpusArtifacts) (s : RetrieverState) (m : Manifest) :
    Option String × RetrieverState :=
  let s1 := { s with manifest := some m }
  let res := loadCorpora env s1 m.corpora
  match res.1 with
  | some e => (some e, res.2)
  | none => (none, { res.2 with loaded := true })

/-- The not-loaded error of faiss_s3.py line 151. -/
def retrieverNotLoadedMsg : String :=
  "Retriever not loaded. Call load_from_manifest() first."

/-- The per-corpus result loop of `search` (faiss_s3.py lines 166–194):
zip distances with ordinal ids, skip the `-1` sentinel, skip (with a logged
warning) ids with no truthy entry in the id map, and default missing
doc-map entries to empty text and metadata. -/
def buildCorpusResults (corpus_name : String) (distances : List ℚ) (ann_ids : List Int)
    (id_map : Int → Option String) (doc_map : String → Option (String × Metadata)) :
    List RItem :=
  (distances.zip ann_ids).foldl
    (fun acc p =>
      if p.2 = -1 then acc
      else
        match id_map p.2 with
        | none => acc
        | some chunk_id =>
          if chunk_id = "" then acc
          else
            acc ++ [{ corpus? := some corpus_name, chunk_id? := some chunk_id,
                      score := p.1,
                      text := ((doc_map chunk_id).map (·.1)).getD "",
                      metadata := ((doc_map chunk_id).map (·.2)).getD [] }])
    []

/-- The `search` operation (faiss_s3.py lines 139–208).  The query embedding
(utils/embeddings.py, a file not present among the sources) is an external
collaborator passed as a function; per-corpus dict lookups that cannot miss
in states produced by loading are totalized with empty maps. -/
def search (embed : String → List ℚ) (s : RetrieverState) (query : String)
    (top_k : ℕ := 5) : Except String (List RItem) :=
  if s.loaded = false then
    Except.error retrieverNotLoadedMsg
  else
    let query_vector := embed query
    let ranked_lists := s.indices.map
      (fun p =>
        let res := p.2.search query_vector top_k
        buildCorpusResults p.1 res.1 res.2
          ((dictGet? s.id_maps p.1).getD (fun _ => none))
          ((dictGet? s.doc_maps p.1).getD (fun _ => none)))
    Except.ok (reciprocal_rank_fusion ranked_lists s.fusion_k)

/-- The `close` operation (faiss_s3.py lines 210–216): clear the three
dicts and reset the loaded flag (manifest and corpus counts are left in
place, as in the source). -/
def close (s : RetrieverState) : RetrieverState :=
  { s with indices := [], id_maps := [], doc_maps := [], loaded := false }

/-! ### Loading lemmas -/

lemma load_corpus_loaded {s : RetrieverState} {corpus_name : String} {entry : CorpusEntry}
    {art : CorpusArtifacts} {s' : RetrieverState}
    (h : load_corpus s corpus_name entry art = Except.ok s') : s'.loaded = s.loaded := by
  unfold load_corpus at h
  split at h
  · cases h
  · cases h
    rfl

lemma load_corpus_error_shape {s : RetrieverState} {corpus_name : String} {entry : CorpusEntry}
    {art : CorpusArtifacts} {e : String}
    (h : load_corpus s corpus_name entry art = Except.error e) :
    art.index.d ≠ entry.dimension ∧ e = dimensionMismatchMsg art.index.d entry.dimension := by
  unfold load_corpus at h
  split at h
  · cases h
    exact ⟨by assumption, rfl⟩
  · cases h

lemma loadCorpora_loaded (env : String → CorpusArtifacts) :
    ∀ (entries : List (String × CorpusEntry)) (s : RetrieverState),
      ((loadCorpora env s entries).2).loaded = s.loaded := by
  intro entries
  induction entries with
  | nil => intro s; rfl
  | cons p rest ih =>
    intro s
    rw [show loadCorpora env s (p :: rest)
        = (match load_corpus s p.1 p.2 (env p.1) with
           | Except.error e => (some e, s)
           | Except.ok s' => loadCorpora env s' rest) from rfl]
    cases h : load_corpus s p.1 p.2 (env p.1) with
    | error e => rfl
    | ok s' =>
      rw [ih s', load_corpus_loaded h]

lemma loadCorpora_fails (env : String → CorpusArtifacts) :
    ∀ (entries : List (String × CorpusEntry)) (s : RetrieverState),
      (∃ p ∈ entries, (env p.1).index.d ≠ p.2.dimension) →
      ∃ e, (loadCorpora env s entries).1 = some e
        ∧ ∃ d₁ d₂, d₁ ≠ d₂ ∧ e = dimensionMismatchMsg d₁ d₂ := by
  intro entries
  induction entries with
  | nil => intro s h; simp at h
  | cons p rest ih =>
    intro s h
    rw [show loadCorpora env s (p :: rest)
        = (match load_corpus s p.1 p.2 (env p.1) with
           | Except.error e => (some e, s)
           | Except.ok s' => loadCorpora env s' rest) from rfl]
    cases hl : load_corpus s p.1 p.2 (env p.1) with
    | error e =>
      obtain ⟨hne, he⟩ := load_corpus_error_shape hl
      exact ⟨e, rfl, _, _, hne, he⟩
    | ok s' =>
      have hok : (env p.1).index.d = p.2.dimension := by
        by_contra hne
        unfold load_corpus at hl
        rw [if_pos hne] at hl
        cases hl
      rcases h with ⟨q, hq, hqd⟩
      rcases List.mem_cons.mp hq with rfl | hq'
      · exact absurd hok hqd
      · exact ih s' ⟨q, hq', hqd⟩

/-! ### Claim theorems for the Retriever Facade -/

/-- C5: if any corpus's deserialized index dimension differs from its
manifest-declared dimension, loading reports a dimension-mismatch error and
the facade stays not-loaded, so every subsequent search call fails with the
not-loaded error (no partial initialization is observable through the
search interface). -/
theorem load_dimension_mismatch_leaves_not_loaded :
    ∀ (env : String → CorpusArtifacts) (s : RetrieverState) (m : Manifest),
      s.loaded = false →
      (∃ p ∈ m.corpora, (env p.1).index.d ≠ p.2.dimension) →
      ∃ e, (load_from_manifest env s m).1 = some e
        ∧ (∃ d₁ d₂, d₁ ≠ d₂ ∧ e = dimensionMismatchMsg d₁ d₂)
        ∧ (load_from_manifest env s m).2.loaded = false
        ∧ ∀ (embed : String → List ℚ) (query : String) (top_k : ℕ),
            search embed (load_from_manifest env s m).2 query top_k
              = Except.error retrieverNotLoadedMsg := by
  intro env s m hnot hfail
  obtain ⟨e, he, hshape⟩ := loadCorpora_fails env m.corpora { s with manifest := some m } hfail
  have hloaded : ((loadCorpora env { s with manifest := some m } m.corpora).2).loaded = false := by
    rw [loadCorpora_loaded]
    exact hnot
  have hres : load_from_manifest env s m
      = (some e, (loadCorpora env { s with manifest := some m } m.corpora).2) := by
    simp only [load_from_manifest, he]
  refine ⟨e, by rw [hres], hshape, by rw [hres]; exact hloaded, ?_⟩
  intro embed query top_k
  rw [hres]
  unfold search
  rw [if_pos hloaded]

/-- C6: search in any state whose loaded flag is false — in particular the
initial state, the state left behind by a failed load, or any state after
close — fails with the not-loaded error; close clears all indices and maps,
resets the flag, and thereby makes every subsequent search fail the same
way. -/
theorem search_requires_loaded :
    (∀ (embed : String → List ℚ) (s : RetrieverState) (query : String) (top_k : ℕ),
        s.loaded = false → search embed s query top_k = Except.error retrieverNotLoadedMsg)
    ∧ (∀ s : RetrieverState,
        (close s).loaded = false
        ∧ (close s).indices = [] ∧ (close s).id_maps = [] ∧ (close s).doc_maps = []
        ∧ ∀ (embed : String → List ℚ) (query : String) (top_k : ℕ),
            search embed (close s) query top_k = Except.error retrieverNotLoadedMsg) := by
  constructor
  · intro embed s query top_k h
    unfold search
    rw [if_pos h]
  · intro s
    exact ⟨rfl, rfl, rfl, rfl, fun embed query top_k => by unfold search close; rfl⟩

/-- Per-hit resolution of the search result loop: what one
(distance, ordinal id) pair contributes to the per-corpus result list. -/
def resolveHit (corpus_name : String) (id_map : Int → Option String)
    (doc_map : String → Option (String × Metadata)) (p : ℚ × Int) : Option RItem :=
  if p.2 = -1 then none
  else
    match id_map p.2 with
    | none => none
    | some chunk_id =>
      if chunk_id = "" then none
      else
        some { corpus? := some corpus_name, chunk_id? := some chunk_id,
               score := p.1,
               text := ((doc_map chunk_id).map (·.1)).getD "",
               metadata := ((doc_map chunk_id).map (·.2)).getD [] }

/-- C7: the per-corpus result loop never fails: it is exactly a filterMap
over the zipped (distance, ordinal id) pairs, where the `-1` sentinel is
filtered out, an ordinal id missing from the id map drops only that single
result, and a chunk id missing from the doc map still yields a result with
empty text and metadata. -/
theorem search_per_result_degradation :
    ∀ (corpus_name : String) (distances : List ℚ) (ann_ids : List Int)
      (id_map : Int → Option String) (doc_map : String → Option (String × Metadata)),
      buildCorpusResults corpus_name distances ann_ids id_map doc_map
          = (distances.zip ann_ids).filterMap (resolveHit corpus_name id_map doc_map)
      ∧ (∀ d : ℚ, resolveHit corpus_name id_map doc_map (d, -1) = none)
      ∧ (∀ (d : ℚ) (i : Int), i ≠ -1 → id_map i = none →
          resolveHit corpus_name id_map doc_map (d, i) = none)
      ∧ (∀ (d : ℚ) (i : Int) (chunk_id : String), i ≠ -1 → id_map i = some chunk_id →
          chunk_id ≠ "" → doc_map chunk_id = none →
          resolveHit corpus_name id_map doc_map (d, i)
            = some { corpus? := some corpus_name, chunk_id? := some chunk_id,
                     text := "", metadata := [], score := d }) := by
  intro corpus_name distances ann_ids id_map doc_map
  refine ⟨?_, fun d => by simp [resolveHit], ?_, ?_⟩
  · unfold buildCorpusResults
    have haux : ∀ (pl : List (ℚ × Int)) (acc : List RItem),
        pl.foldl
          (fun acc p =>
            if p.2 = -1 then acc
            else
              match id_map p.2 with
              | none => acc
              | some chunk_id =>
                if chunk_id = "" then acc
                else
                  acc ++ [{ corpus? := some corpus_name, chunk_id? := some chunk_id,
                            score := p.1,
                            text := ((doc_map chunk_id).map (·.1)).getD "",
                            metadata := ((doc_map chunk_id).map (·.2)).getD [] }]) acc
          = acc ++ pl.filterMap (resolveHit corpus_name id_map doc_map) := by
      intro pl
      induction pl with
      | nil => intro acc; simp
      | cons p rest ih =>
        intro acc
        rw [List.foldl_cons, List.filterMap_cons]
        by_cases h1 : p.2 = -1
        · simp only [resolveHit, if_pos h1]
          rw [ih]
        · cases h2 : id_map p.2 with
          | none =>
            simp only [resolveHit, if_neg h1, h2]
            rw [ih]
          | some cid =>
            by_cases h3 : cid = ""
            · simp only [resolveHit, if_neg h1, h2, if_pos h3]
              rw [ih]
            · simp only [resolveHit, if_neg h1, h2, if_neg h3]
              rw [ih]
              simp
    simpa using haux (distances.zip ann_ids) []
  · intro d i h1 h2
    simp [resolveHit, h1, h2]
  · intro d i chunk_id h1 h2 h3 h4
    simp [resolveHit, h1, h2, h3, h4]

/-- C8 (amended): a search with an empty query string on a loaded facade
does not fail; the empty string is embedded like any other query and the
call returns the fused per-corpus results, which are not empty in general
(they are empty only when every corpus search contributes no usable
result). -/
theorem search_empty_query_returns_fused_results :
    ∀ (embed : String → List ℚ) (s : RetrieverState) (top_k : ℕ),
      s.loaded = true →
      search embed s "" top_k
        = Except.ok (reciprocal_rank_fusion
            (s.indices.map
              (fun p =>
                let res := p.2.search (embed "") top_k
                buildCorpusResults p.1 res.1 res.2
                  ((dictGet? s.id_maps p.1).getD (fun _ => none))
                  ((dictGet? s.doc_maps p.1).getD (fun _ => none))))
            s.fusion_k) := by
  intro embed s top_k h
  unfold search
  rw [h]
  simp

/-! ### Concrete retriever states for counterexample and witnesses -/

def wIndex : FaissIndex := { d := 3, search := fun _ _ => ([1], [0]) }

def wGoodEntry : CorpusEntry :=
  { root := "pdf/", files := ["index.faiss", "ids.jsonl", "docs.jsonl"],
    dimension := 3, count := 1 }

def wManifest : Manifest := { version := "v1", corpora := [("pdf", wGoodEntry)] }

def wArtifacts : CorpusArtifacts :=
  { index := wIndex,
    idRecords := [{ ann_id? := some 0, id? := some ("c1") }],
    docRecords := [{ id? := some ("c1"), text? := some ("hello") }] }

def wEnv : String → CorpusArtifacts := fun _ => wArtifacts

/-- A loaded facade state reached through the loading API. -/
def wLoaded : RetrieverState := (load_from_manifest wEnv {} wManifest).2

def wEmptyLoaded : RetrieverState := { loaded := true }

def wBadEntry : CorpusEntry :=
  { root := "pdf/", files := ["index.faiss", "ids.jsonl", "docs.jsonl"],
    dimension := 1536, count := 1 }

def wBadManifest : Manifest := { version := "v1", corpora := [("pdf", wBadEntry)] }

def wBadEnv : String → CorpusArtifacts :=
  fun _ => { index := { d := 768, search := fun _ _ => ([], []) } }

def wIdMap : Int → Option String := fun i => if i = 0 then some ("c1") else none

def wDocMapEmpty : String → Option (String × Metadata) := fun _ => none

/-- C8 counterexample: on a loaded facade with one indexed chunk, a search
with the empty query string returns a non-empty fused list, refuting the
claim that an empty query yields an empty fused list. -/
theorem search_empty_query_counterexample :
    wLoaded.loaded = true
    ∧ search (fun _ => [0, 0, 0]) wLoaded "" 5
        = Except.ok [{ corpus? := some ("pdf"), chunk_id? := some ("c1"), text := "hello",
                       metadata := [], score := (1:ℚ)/9 }]
    ∧ search (fun _ => [0, 0, 0]) wLoaded "" 5 ≠ Except.ok [] := by
  have h2 : search (fun _ => [0, 0, 0]) wLoaded "" 5
      = Except.ok [{ corpus? := some ("pdf"), chunk_id? := some ("c1"), text := "hello",
                     metadata := [], score := (1:ℚ)/9 }] := by
    norm_num +decide [wLoaded, wEnv, wArtifacts, wManifest, wGoodEntry, wIndex,
      load_from_manifest, loadCorpora, load_corpus, dictSet, dictGet?, buildIdMap, buildDocMap,
      search, buildCorpusResults, reciprocal_rank_fusion, collectFused, buildScoreMap,
      scoreMapList, dedupeStep, keyOf, Function.update_apply, List.enumFrom,
      List.insertionSort, List.orderedInsert, scoreDesc]
  refine ⟨rfl, h2, ?_⟩
  rw [h2]
  simp

/-- Witness for C5 at concrete inputs: a manifest declaring dimension 1536
over an index of dimension 768. -/
theorem load_dimension_mismatch_leaves_not_loaded_holds :
    ∃ e, (load_from_manifest wBadEnv {} wBadManifest).1 = some e
      ∧ (∃ d₁ d₂, d₁ ≠ d₂ ∧ e = dimensionMismatchMsg d₁ d₂)
      ∧ (load_from_manifest wBadEnv {} wBadManifest).2.loaded = false
      ∧ ∀ (embed : String → List ℚ) (query : String) (top_k : ℕ),
          search embed (load_from_manifest wBadEnv {} wBadManifest).2 query top_k
            = Except.error retrieverNotLoadedMsg :=
  load_dimension_mismatch_leaves_not_loaded wBadEnv {} wBadManifest rfl
    ⟨("pdf", wBadEntry), by decide, by decide⟩

/-- Witness for C6 at concrete inputs. -/
theorem search_requires_loaded_holds :
    search (fun _ => []) ({} : RetrieverState) "q" 5 = Except.error retrieverNotLoadedMsg
    ∧ ((close wEmptyLoaded).loaded = false
        ∧ (close wEmptyLoaded).indices = [] ∧ (close wEmptyLoaded).id_maps = []
        ∧ (close wEmptyLoaded).doc_maps = []
        ∧ ∀ (embed : String → List ℚ) (query : String) (top_k : ℕ),
            search embed (close wEmptyLoaded) query top_k
              = Except.error retrieverNotLoadedMsg) :=
  ⟨search_requires_loaded.1 (fun _ => []) {} "q" 5 rfl,
    search_requires_loaded.2 wEmptyLoaded⟩

/-- Witness for C7 at concrete inputs: a sentinel hit, a hit with no id-map
entry, and a mapped hit with no doc-map entry. -/
theorem search_per_result_degradation_holds :
    buildCorpusResults "pdf" [(1:ℚ), 2] [-1, 0] wIdMap wDocMapEmpty
        = (([(1:ℚ), 2]).zip [-1, 0]).filterMap (resolveHit "pdf" wIdMap wDocMapEmpty)
    ∧ resolveHit "pdf" wIdMap wDocMapEmpty ((3:ℚ), -1) = none
    ∧ resolveHit "pdf" wIdMap wDocMapEmpty ((3:ℚ), 5) = none
    ∧ resolveHit "pdf" wIdMap wDocMapEmpty ((3:ℚ), 0)
        = some { corpus? := some ("pdf"), chunk_id? := some ("c1"), text := "", metadata := [],
                 score := (3:ℚ) } := by
  obtain ⟨h1, h2, h3, h4⟩ :=
    search_per_result_degradation "pdf" [(1:ℚ), 2] [-1, 0] wIdMap wDocMapEmpty
  exact ⟨h1, h2 3, h3 3 5 (by decide) (by decide),
    h4 3 0 ("c1") (by decide) (by decide) (by decide) rfl⟩

/-- Witness for the amended C8 at concrete inputs. -/
theorem search_empty_query_returns_fused_results_holds :
    search (fun _ => [0, 0, 0]) wLoaded "" 5
      = Except.ok (reciprocal_rank_fusion
          (wLoaded.indices.map
            (fun p =>
              let res := p.2.search [0, 0, 0] 5
              buildCorpusResults p.1 res.1 res.2
                ((dictGet? wLoaded.id_maps p.1).getD (fun _ => none))
                ((dictGet? wLoaded.doc_maps p.1).getD (fun _ => none))))
          wLoaded.fusion_k) :=
  search_empty_query_returns_fused_results (fun _ => [0, 0, 0]) wLoaded 5 rfl

end MedTrialRag
